import Mathlib

/-!
Verification development for the qixichat room synchronization core.

The embedding covers:
* the server-side room coordinator `Chat` (`src/unnamed/part_001`):
  `Chat.saveMessage`, `Chat.onMessage`, the SQL upsert statement it builds,
  and the table it maintains;
* the client-side reconciler (`src/src/client/index.tsx`): the `add`,
  `update` and `all` branches of the two `usePartySocket` `onMessage`
  handlers (first revision with `try`/`catch`, second revision without).

JavaScript strings become `String`, `Date.now()` becomes a `Nat` argument,
the optional `timestamp` field becomes `Option Nat`, and `JSON.parse` is
abstracted as a function `String → Except Unit WireEvent` (`Except.error`
models a thrown parse exception; `WireEvent.other` models a parsed value
whose `type` is neither `"add"`, `"update"` nor `"all"`).
-/

namespace QixiChat

/-- The `ChatMessage` record of `src/unnamed/part_000`: `id`, `content`,
`user`, `role` and an optional `timestamp`.  The TypeScript `role` is
annotated `"user" | "assistant"`, but `JSON.parse` performs no runtime
validation, so the embedding keeps it as an arbitrary string. -/
structure ChatMessage where
  id : String
  content : String
  user : String
  role : String
  timestamp : Option Nat
deriving DecidableEq

/-- Classification of a successfully parsed incoming JSON value, following
the `Message` union of `src/unnamed/part_000`.  `other` stands for any
parsed value whose `type` tag is none of `"add"`, `"update"`, `"all"`; its
argument records whether that value happens to carry a `messages` array
(`none` models `message.messages` being `undefined`). -/
inductive WireEvent where
  | add (m : ChatMessage)
  | update (m : ChatMessage)
  | all (messages : List ChatMessage)
  | other (messages : Option (List ChatMessage))
deriving DecidableEq

/-- Abstraction of `JSON.parse` followed by the TypeScript cast to
`Message`: either the parse throws (`Except.error`) or it yields a value
classified by `WireEvent`. -/
abbrev ParseFn := String → Except Unit WireEvent

/-- A row of the SQLite `messages` table created in `Chat.onStart`:
`(id TEXT PRIMARY KEY, user TEXT, role TEXT, content TEXT)`.  There is no
timestamp column. -/
structure Row where
  id : String
  user : String
  role : String
  content : String
deriving DecidableEq

/-- State of one room's `Chat` durable object: the connected connection
ids, the in-memory `this.messages` array, and the SQLite `messages`
table. -/
structure ServerState where
  connections : List String
  messages : List ChatMessage
  table : List Row
deriving DecidableEq

/-- Lowercase hexadecimal digit, as used by JavaScript string escaping. -/
def hexDigit (n : Nat) : Char :=
  if n < 10 then Char.ofNat (48 + n) else Char.ofNat (87 + n)

/-- Escaping of a single character by `JSON.stringify`: `"` and `\` get a
backslash, the five control characters with short escapes use them, the
remaining control characters use `\u00XX`, everything else (including the
single quote) is emitted verbatim. -/
def jsonEscapeChar (c : Char) : List Char :=
  if c = '"' then ['\\', '"']
  else if c = '\\' then ['\\', '\\']
  else if c = '\x08' then ['\\', 'b']
  else if c = '\t' then ['\\', 't']
  else if c = '\n' then ['\\', 'n']
  else if c = '\x0c' then ['\\', 'f']
  else if c = '\r' then ['\\', 'r']
  else if c.toNat < 32 then ['\\', 'u', '0', '0', hexDigit (c.toNat / 16), hexDigit (c.toNat % 16)]
  else [c]

/-- `JSON.stringify` applied to a string: the escaped body wrapped in
double quotes. -/
def jsonStringify (s : String) : String :=
  String.mk ('"' :: s.data.flatMap jsonEscapeChar ++ ['"'])

/-- The SQL text built by `Chat.saveMessage` (`src/unnamed/part_001`,
lines 54-63): a template literal splicing `message.id`, `message.user`
and `message.role` directly between single quotes, and
`JSON.stringify(message.content)` for the content slots. -/
def buildStatement (m : ChatMessage) : String :=
  "INSERT INTO messages (id, user, role, content) VALUES ('" ++ m.id ++ "', '"
    ++ m.user ++ "', '" ++ m.role ++ "', " ++ jsonStringify m.content
    ++ ") ON CONFLICT (id) DO UPDATE SET content = " ++ jsonStringify m.content

/-- Effect of executing the statement built by `buildStatement` on the
`messages` table, for values that reach SQLite as the intended literals
(no quote characters; the injection analysis of the raw statement text is
carried out separately via `parseUpsert`): `INSERT ... ON CONFLICT (id)
DO UPDATE SET content = ...` inserts a fresh row, or, when a row with the
same `id` exists, updates only that row's `content` column. -/
def sqlUpsert (tbl : List Row) (m : ChatMessage) : List Row :=
  if tbl.any (fun r => r.id == m.id) then
    tbl.map (fun r => if r.id == m.id then { r with content := m.content } else r)
  else
    tbl ++ [⟨m.id, m.user, m.role, m.content⟩]

/-- The load performed by `Chat.onStart`: `SELECT * FROM messages` cast to
`ChatMessage[]`.  Rows carry no timestamp column, so the loaded objects
have no `timestamp` property (`none`). -/
def loadMessages (tbl : List Row) : List ChatMessage :=
  tbl.map (fun r => ⟨r.id, r.content, r.user, r.role, none⟩)

/-- `Chat.saveMessage` (`src/unnamed/part_001`, lines 40-64): if
`this.messages.find((m) => m.id === message.id)` is truthy, replace every
entry with that id via `map`, otherwise `push` the message; then execute
the upsert statement against the SQLite table. -/
def Chat.saveMessage (st : ServerState) (m : ChatMessage) : ServerState :=
  let messages :=
    if (st.messages.find? (fun x => x.id == m.id)).isSome then
      st.messages.map (fun x => if x.id == m.id then m else x)
    else
      st.messages ++ [m]
  { st with messages := messages, table := sqlUpsert st.table m }

/-- One call to partyserver's `Server.broadcast(msg, without?)`: the
payload sent and the list of connection ids excluded from delivery.
Modelled from partyserver: the payload goes to every connection of the
room whose id is not listed in `without`; an omitted `without` excludes
nobody. -/
structure BroadcastCall where
  payload : String
  exclude : List String
deriving DecidableEq

/-- The connection ids that actually receive a broadcast: all current
connections minus the excluded ones (partyserver `Server.broadcast`). -/
def recipients (conns : List String) (b : BroadcastCall) : List String :=
  conns.filter (fun c => !(b.exclude.contains c))

/-- `Chat.onMessage` (`src/unnamed/part_001`, lines 66-75).  It first
calls `this.broadcast(message)` — no exclusion list — and then runs
`JSON.parse` with no `try`/`catch`: a parse failure therefore escapes the
handler (`Except.error`).  A parsed event whose `type` is `"add"` or
`"update"` is passed to `saveMessage`; any other parsed value is ignored.
The first component is the broadcast call issued (before parsing), the
second the resulting state or the escaped exception. -/
def Chat.onMessage (p : ParseFn) (st : ServerState) (_conn : String) (raw : String) :
    BroadcastCall × Except Unit ServerState :=
  (⟨raw, []⟩,
    match p raw with
    | .error _ => .error ()
    | .ok (.add m) => .ok (Chat.saveMessage st m)
    | .ok (.update m) => .ok (Chat.saveMessage st m)
    | .ok (.all _) => .ok st
    | .ok (.other _) => .ok st)

/-- The entry object written into the local view by the client's `add`
and `update` branches: `{id, content, user, role, timestamp: Date.now()}`
(`src/src/client/index.tsx`, both revisions).  The carried timestamp of
the event is not consulted. -/
def clientEntry (m : ChatMessage) (now : Nat) : ChatMessage :=
  ⟨m.id, m.content, m.user, m.role, some now⟩

/-- JavaScript `Array.prototype.findIndex`, with `-1` rendered as
`none`. -/
def findIndex (p : α → Bool) : List α → Option Nat
  | [] => none
  | x :: xs => if p x then some 0 else (findIndex p xs).map (· + 1)

/-- The `add` branch of the client `onMessage` handlers
(`src/src/client/index.tsx`, lines 357-383 and 762-788): look up
`findIndex((m) => m.id === message.id)`; if absent append the fresh entry,
otherwise `slice(0, i).concat(entry).concat(slice(i+1))` — replace in
place. -/
def addBranch (view : List ChatMessage) (m : ChatMessage) (now : Nat) : List ChatMessage :=
  match findIndex (fun x => x.id == m.id) view with
  | none => view ++ [clientEntry m now]
  | some i => view.take i ++ [clientEntry m now] ++ view.drop (i + 1)

/-- The `update` branch of the client `onMessage` handlers
(`src/src/client/index.tsx`, lines 384-397 and 789-802): `map` replacing
every entry whose id matches by the fresh entry. -/
def updateBranch (view : List ChatMessage) (m : ChatMessage) (now : Nat) : List ChatMessage :=
  view.map (fun x => if x.id == m.id then clientEntry m now else x)

/-- JavaScript `msg.timestamp || Date.now()`: the carried timestamp when
it is present and non-zero (zero is falsy), the local time otherwise. -/
def tsOr (t : Option Nat) (now : Nat) : Nat :=
  match t with
  | none => now
  | some k => if k = 0 then now else k

/-- The snapshot branch of the client `onMessage` handlers
(`src/src/client/index.tsx`, lines 398-403 and 803-807):
`setMessages(message.messages.map(msg => ({...msg, timestamp:
msg.timestamp || Date.now()})))`.  The previous view is discarded. -/
def allBranch (_view : List ChatMessage) (snap : List ChatMessage) (now : Nat) :
    List ChatMessage :=
  snap.map (fun msg => { msg with timestamp := some (tsOr msg.timestamp now) })

/-- The first-revision client `onMessage` handler
(`src/src/client/index.tsx`, lines 354-407): the whole body sits in a
`try` whose `catch` only logs, so a parse failure leaves the view
untouched; the branch chain is `if add / else if update / else if all`,
so an unrecognized `type` also leaves the view untouched. -/
def rev1OnMessage (p : ParseFn) (view : List ChatMessage) (raw : String) (now : Nat) :
    List ChatMessage :=
  match p raw with
  | .error _ => view
  | .ok (.add m) => addBranch view m now
  | .ok (.update m) => updateBranch view m now
  | .ok (.all snap) => allBranch view snap now
  | .ok (.other _) => view

/-- The second-revision client `onMessage` handler
(`src/src/client/index.tsx`, lines 760-810): no `try`/`catch`, so a parse
failure escapes (`Except.error`); the branch chain is `if add / else if
update / else`, so every other parsed value reaches
`message.messages.map(...)` — which throws when the value has no
`messages` array and otherwise behaves like the snapshot branch. -/
def rev2OnMessage (p : ParseFn) (view : List ChatMessage) (raw : String) (now : Nat) :
    Except Unit (List ChatMessage) :=
  match p raw with
  | .error _ => .error ()
  | .ok (.add m) => .ok (addBranch view m now)
  | .ok (.update m) => .ok (updateBranch view m now)
  | .ok (.all snap) => .ok (allBranch view snap now)
  | .ok (.other (some snap)) => .ok (allBranch view snap now)
  | .ok (.other none) => .error ()

/-- The ids of a message list, in order. -/
def msgIds (l : List ChatMessage) : List String :=
  l.map (fun m => m.id)

/-- An `add` or `update` event, the two event kinds that mutate a log. -/
inductive AUEvent where
  | add (m : ChatMessage)
  | update (m : ChatMessage)
deriving DecidableEq

/-- The message carried by an `add`/`update` event. -/
def AUEvent.msg : AUEvent → ChatMessage
  | .add m => m
  | .update m => m

/-- Coordinator application of one `add`/`update` event: `Chat.onMessage`
routes both kinds to `Chat.saveMessage`. -/
def serverApply (st : ServerState) (e : AUEvent) : ServerState :=
  Chat.saveMessage st e.msg

/-- Reconciler application of one `add`/`update` event received at local
time `now`. -/
def clientApply (view : List ChatMessage) (en : AUEvent × Nat) : List ChatMessage :=
  match en.1 with
  | .add m => addBranch view m en.2
  | .update m => updateBranch view m en.2

/-- SQLite lexing of the body of a single-quoted string literal, entered
just after the opening quote: `''` stands for one quote inside the
literal, a lone `'` terminates it, every other character is literal. -/
def parseLit : List Char → Option (List Char × List Char)
  | [] => none
  | c :: rest =>
    if c = '\'' then
      match rest with
      | [] => some ([], rest)
      | r2 :: rest2 =>
        if r2 = '\'' then (parseLit rest2).map (fun q => ('\'' :: q.1, q.2))
        else some ([], rest)
    else
      (parseLit rest).map (fun q => (c :: q.1, q.2))

/-- SQLite lexing of the body of a double-quoted token, entered just after
the opening quote: `""` stands for one double quote, a lone `"` terminates
the token, backslashes are not special. -/
def parseDq : List Char → Option (List Char × List Char)
  | [] => none
  | c :: rest =>
    if c = '"' then
      match rest with
      | [] => some ([], rest)
      | r2 :: rest2 =>
        if r2 = '"' then (parseDq rest2).map (fun q => ('"' :: q.1, q.2))
        else some ([], rest)
    else
      (parseDq rest).map (fun q => (c :: q.1, q.2))

/-- Match an exact expected character sequence and return the remainder. -/
def expects : List Char → List Char → Option (List Char)
  | [], cs => some cs
  | _ :: _, [] => none
  | e :: es, c :: cs => if c = e then expects es cs else none

/-- Recognizer for the exact statement shape `Chat.saveMessage` intends to
produce — a single-row upsert on the `messages` table — using SQLite's
lexing of quoted literals.  It yields the three single-quoted values and
the two double-quoted content tokens, and succeeds only when the whole
text is consumed. -/
def parseUpsert (s : String) : Option (List Char × List Char × List Char × List Char × List Char) := do
  let cs0 ← expects "INSERT INTO messages (id, user, role, content) VALUES ('".data s.data
  let (i, cs1) ← parseLit cs0
  let cs2 ← expects ", '".data cs1
  let (u, cs3) ← parseLit cs2
  let cs4 ← expects ", '".data cs3
  let (r, cs5) ← parseLit cs4
  let cs6 ← expects ", \"".data cs5
  let (c1, cs7) ← parseDq cs6
  let cs8 ← expects ") ON CONFLICT (id) DO UPDATE SET content = \"".data cs7
  let (c2, cs9) ← parseDq cs8
  match cs9 with
  | [] => some (i, u, r, c1, c2)
  | _ :: _ => none

/-- Correct SQLite escaping of a single-quoted literal body: every quote
doubled.  `parseLit` recognizes exactly strings of the form
`escQ v ++ '\'' :: rest`. -/
def escQ (v : List Char) : List Char :=
  v.flatMap (fun c => if c = '\'' then ['\'', '\''] else [c])

/-- Correct SQLite escaping of a double-quoted token body: every double
quote doubled. -/
def escD (v : List Char) : List Char :=
  v.flatMap (fun c => if c = '"' then ['"', '"'] else [c])

theorem expects_sound : ∀ (p cs rest : List Char), expects p cs = some rest → cs = p ++ rest := by
  intro p
  induction p with
  | nil => intro cs rest h; simpa [expects] using h
  | cons e es ih =>
    intro cs rest h
    cases cs with
    | nil => simp [expects] at h
    | cons c cs' =>
      simp only [expects] at h
      split at h
      · next hce => rw [hce]; simp [ih cs' rest h]
      · exact absurd h (by simp)

theorem parseLit_sound : ∀ (cs v rest : List Char), parseLit cs = some (v, rest) →
    cs = escQ v ++ '\'' :: rest := by
  intro cs
  induction cs using parseLit.induct with
  | case1 =>
    intro v rest h
    simp [parseLit.eq_1] at h
  | case2 =>
    intro v rest h
    rw [parseLit.eq_2, if_pos rfl] at h
    simp only [Option.some.injEq, Prod.mk.injEq] at h
    obtain ⟨h1, h2⟩ := h
    subst h1; subst h2
    simp [escQ]
  | case3 rest2 ih =>
    intro v rest h
    rw [parseLit.eq_3, if_pos rfl, if_pos rfl, Option.map_eq_some'] at h
    obtain ⟨⟨v', r'⟩, hp, hv⟩ := h
    simp only [Prod.mk.injEq] at hv
    obtain ⟨hv1, hv2⟩ := hv
    subst hv1; subst hv2
    rw [ih v' r' hp]
    simp [escQ]
  | case4 r2 rest2 hne =>
    intro v rest h
    rw [parseLit.eq_3, if_pos rfl, if_neg hne] at h
    simp only [Option.some.injEq, Prod.mk.injEq] at h
    obtain ⟨h1, h2⟩ := h
    subst h1; subst h2
    simp [escQ]
  | case5 c rest' hne ih =>
    intro v rest h
    cases rest' with
    | nil =>
      rw [parseLit.eq_2, if_neg hne] at h
      simp [parseLit.eq_1] at h
    | cons r2 rest2 =>
      rw [parseLit.eq_3, if_neg hne, Option.map_eq_some'] at h
      obtain ⟨⟨v', r'⟩, hp, hv⟩ := h
      simp only [Prod.mk.injEq] at hv
      obtain ⟨hv1, hv2⟩ := hv
      subst hv1; subst hv2
      rw [ih v' r' hp]
      simp [escQ, hne]

theorem parseDq_sound : ∀ (cs v rest : List Char), parseDq cs = some (v, rest) →
    cs = escD v ++ '"' :: rest := by
  intro cs
  induction cs using parseDq.induct with
  | case1 =>
    intro v rest h
    simp [parseDq.eq_1] at h
  | case2 =>
    intro v rest h
    rw [parseDq.eq_2, if_pos rfl] at h
    simp only [Option.some.injEq, Prod.mk.injEq] at h
    obtain ⟨h1, h2⟩ := h
    subst h1; subst h2
    simp [escD]
  | case3 rest2 ih =>
    intro v rest h
    rw [parseDq.eq_3, if_pos rfl, if_pos rfl, Option.map_eq_some'] at h
    obtain ⟨⟨v', r'⟩, hp, hv⟩ := h
    simp only [Prod.mk.injEq] at hv
    obtain ⟨hv1, hv2⟩ := hv
    subst hv1; subst hv2
    rw [ih v' r' hp]
    simp [escD]
  | case4 r2 rest2 hne =>
    intro v rest h
    rw [parseDq.eq_3, if_pos rfl, if_neg hne] at h
    simp only [Option.some.injEq, Prod.mk.injEq] at h
    obtain ⟨h1, h2⟩ := h
    subst h1; subst h2
    simp [escD]
  | case5 c rest' hne ih =>
    intro v rest h
    cases rest' with
    | nil =>
      rw [parseDq.eq_2, if_neg hne] at h
      simp [parseDq.eq_1] at h
    | cons r2 rest2 =>
      rw [parseDq.eq_3, if_neg hne, Option.map_eq_some'] at h
      obtain ⟨⟨v', r'⟩, hp, hv⟩ := h
      simp only [Prod.mk.injEq] at hv
      obtain ⟨hv1, hv2⟩ := hv
      subst hv1; subst hv2
      rw [ih v' r' hp]
      simp [escD, hne]

theorem escQ_nil : escQ [] = [] := rfl

theorem escQ_cons (c : Char) (v : List Char) :
    escQ (c :: v) = (if c = '\'' then ['\'', '\''] else [c]) ++ escQ v := by
  simp [escQ]

theorem replicate_absorb (n : Nat) (x : Char) (l : List Char) :
    List.replicate n x ++ x :: l = List.replicate (n + 1) x ++ l := by
  rw [List.replicate_succ']
  simp

/-- A quote run cannot be closed off: a text of the form
`cs ++ ''' :: ',' :: rest` never re-reads as at least one pending quote
followed by the correctly escaped form of `cs` and a terminating quote. -/
theorem escR : ∀ (cs : List Char) (n : Nat) (Z rest : List Char),
    cs ++ '\'' :: ',' :: rest = List.replicate (n + 1) '\'' ++ (escQ cs ++ '\'' :: Z) → False := by
  intro cs
  induction cs with
  | nil =>
    intro n Z rest h
    rw [escQ_nil, List.nil_append, List.nil_append, List.replicate_succ] at h
    obtain ⟨-, h⟩ := List.cons.injEq .. ▸ h
    cases n with
    | zero => simp at h
    | succ m => rw [List.replicate_succ] at h; simp at h
  | cons c cs' ih =>
    intro n Z rest h
    rw [List.replicate_succ, List.cons_append] at h
    obtain ⟨hc, h⟩ := List.cons.injEq .. ▸ h
    subst hc
    rw [escQ_cons, if_pos rfl] at h
    have h2 : cs' ++ '\'' :: ',' :: rest =
        List.replicate (n + 1 + 1) '\'' ++ (escQ cs' ++ '\'' :: Z) := by
      rw [← replicate_absorb, ← replicate_absorb]
      simpa using h
    exact ih (n + 1) Z rest h2

/-- Key separation property: if a value `v` spliced before the closing
quote and the `', ` separator re-parses as the escaped form of `v`, then
`v` contains no single quote and the remainders agree. -/
theorem escQ_sepQ : ∀ (v X rest : List Char),
    v ++ '\'' :: ',' :: rest = escQ v ++ '\'' :: X → '\'' ∉ v ∧ X = ',' :: rest := by
  intro v
  induction v with
  | nil =>
    intro X rest h
    rw [escQ_nil, List.nil_append, List.nil_append] at h
    obtain ⟨-, h⟩ := List.cons.injEq .. ▸ h
    exact ⟨by simp, h.symm⟩
  | cons c v' ih =>
    intro X rest h
    by_cases hc : c = '\''
    · subst hc
      rw [escQ_cons, if_pos rfl, List.cons_append] at h
      obtain ⟨-, h⟩ := List.cons.injEq .. ▸ h
      exact absurd (by simpa using h) (fun hh => escR v' 0 X rest hh)
    · rw [escQ_cons, if_neg hc, List.cons_append, List.cons_append] at h
      obtain ⟨-, h⟩ := List.cons.injEq .. ▸ h
      obtain ⟨hnv, hX⟩ := ih X rest h
      refine ⟨?_, hX⟩
      simp only [List.mem_cons, not_or]
      exact ⟨Ne.symm hc, hnv⟩

theorem buildStatement_data (m : ChatMessage) :
    (buildStatement m).data = "INSERT INTO messages (id, user, role, content) VALUES ('".data ++
      (m.id.data ++ '\'' :: ',' :: ' ' :: '\'' ::
        (m.user.data ++ '\'' :: ',' :: ' ' :: '\'' ::
          (m.role.data ++ '\'' :: ',' :: ' ' :: '"' ::
            (m.content.data.flatMap jsonEscapeChar ++ '"' ::
              (") ON CONFLICT (id) DO UPDATE SET content = ".data ++ '"' ::
                (m.content.data.flatMap jsonEscapeChar ++ ['"'])))))) := by
  simp only [buildStatement, jsonStringify, String.data_append]
  simp only [List.append_assoc]
  rfl

theorem parseUpsert_sound (s : String) (i u r c1 c2 : List Char)
    (h : parseUpsert s = some (i, u, r, c1, c2)) :
    s.data = "INSERT INTO messages (id, user, role, content) VALUES ('".data ++
      (escQ i ++ '\'' :: ',' :: ' ' :: '\'' ::
        (escQ u ++ '\'' :: ',' :: ' ' :: '\'' ::
          (escQ r ++ '\'' :: ',' :: ' ' :: '"' ::
            (escD c1 ++ '"' ::
              (") ON CONFLICT (id) DO UPDATE SET content = ".data ++ '"' ::
                (escD c2 ++ ['"'])))))) := by
  simp only [parseUpsert, bind, Option.bind_eq_some] at h
  obtain ⟨cs0, h0, h⟩ := h
  obtain ⟨⟨i1, cs1⟩, h1, h⟩ := h
  obtain ⟨cs2, h2, h⟩ := h
  obtain ⟨⟨u1, cs3⟩, h3, h⟩ := h
  obtain ⟨cs4, h4, h⟩ := h
  obtain ⟨⟨r1, cs5⟩, h5, h⟩ := h
  obtain ⟨cs6, h6, h⟩ := h
  obtain ⟨⟨c11, cs7⟩, h7, h⟩ := h
  obtain ⟨cs8, h8, h⟩ := h
  obtain ⟨⟨c21, cs9⟩, h9, h⟩ := h
  dsimp only at h2 h4 h6 h8 h
  cases cs9 with
  | cons x xs => simp at h
  | nil =>
    simp only [Option.some.injEq, Prod.mk.injEq] at h
    obtain ⟨hi, hu, hr, hc1, hc2⟩ := h
    subst hi; subst hu; subst hr; subst hc1; subst hc2
    have e0 := expects_sound _ _ _ h0
    have e1 := parseLit_sound _ _ _ h1
    have e2 := expects_sound _ _ _ h2
    have e3 := parseLit_sound _ _ _ h3
    have e4 := expects_sound _ _ _ h4
    have e5 := parseLit_sound _ _ _ h5
    have e6 := expects_sound _ _ _ h6
    have e7 := parseDq_sound _ _ _ h7
    have e8 := expects_sound _ _ _ h8
    have e9 := parseDq_sound _ _ _ h9
    rw [e0, e1, e2, e3, e4, e5, e6, e7, e8, e9]
    rfl

/-- Claim C9: the persistence statement is built by splicing the
message's `id`, `user` and `role` into the SQL text unescaped, so the
statement reads back as a single-row upsert carrying exactly those three
values only when none of them contains a single-quote character; and for
some message containing a single quote (here `id = "'"`), the constructed
statement is not a well-formed single-row upsert at all. -/
theorem c9_sql_injection :
    (∀ (m : ChatMessage) (c1 c2 : List Char),
        parseUpsert (buildStatement m) =
          some (m.id.data, m.user.data, m.role.data, c1, c2) →
        '\'' ∉ m.id.data ∧ '\'' ∉ m.user.data ∧ '\'' ∉ m.role.data)
    ∧ parseUpsert (buildStatement ⟨"'", "hi", "alice", "user", none⟩) = none := by
  constructor
  · intro m c1 c2 h
    have e := (buildStatement_data m).symm.trans (parseUpsert_sound _ _ _ _ _ _ h)
    have e1 := List.append_cancel_left e
    obtain ⟨hid, hX⟩ := escQ_sepQ _ _ _ e1
    simp only [List.cons.injEq, true_and] at hX
    obtain ⟨huser, hX2⟩ := escQ_sepQ _ _ _ hX.symm
    simp only [List.cons.injEq, true_and] at hX2
    obtain ⟨hrole, -⟩ := escQ_sepQ _ _ _ hX2.symm
    exact ⟨hid, huser, hrole⟩
  · decide

/-- Witness for `c9_sql_injection`: for the concrete quote-free message
`{id:"m1", content:"hi", user:"alice", role:"user"}` the built statement
does parse back as the intended single-row upsert, and the theorem then
yields that the three spliced values are quote-free. -/
theorem c9_sql_injection_witness :
    '\'' ∉ ("m1" : String).data ∧ '\'' ∉ ("alice" : String).data ∧
      '\'' ∉ ("user" : String).data :=
  c9_sql_injection.1 ⟨"m1", "hi", "alice", "user", none⟩ "hi".data "hi".data (by decide)

/-- Claim C8: `Chat.onMessage` relays the raw frame verbatim to all of
the room's connections, whatever the parse outcome — the broadcast call
carries the unmodified frame, excludes nobody, and its recipient set is
the full connection list; this holds in particular when `p raw` is a
parse failure or an event of unrecognized shape, since `p` is universally
quantified and the broadcast does not depend on it. -/
theorem c8_raw_relay (p : ParseFn) (st : ServerState) (conn raw : String) :
    (Chat.onMessage p st conn raw).1.payload = raw ∧
      (Chat.onMessage p st conn raw).1.exclude = [] ∧
      recipients st.connections (Chat.onMessage p st conn raw).1 = st.connections := by
  refine ⟨rfl, rfl, ?_⟩
  simp [Chat.onMessage, recipients]

/-- Claim C1 (evaluating the code): the sender's own connection is among
the recipients of the relayed event, because `Chat.onMessage` calls
`this.broadcast(message)` with no exclusion list. -/
theorem c1_broadcast_includes_sender (p : ParseFn) (st : ServerState) (conn raw : String)
    (h : conn ∈ st.connections) :
    conn ∈ recipients st.connections (Chat.onMessage p st conn raw).1 := by
  simp [Chat.onMessage, recipients, h]

/-- Witness for `c1_broadcast_includes_sender`: in a room with
connections `c1` and `c2`, a frame sent by `c1` is relayed back to
`c1` itself. -/
theorem c1_broadcast_includes_sender_witness :
    "c1" ∈ recipients ["c1", "c2"]
      (Chat.onMessage (fun _ => Except.error ()) ⟨["c1", "c2"], [], []⟩ "c1" "ping").1 :=
  c1_broadcast_includes_sender _ _ _ _ (by decide)

/-- Counterexample to claim C3: an unparseable payload makes the
Coordinator's `onMessage` throw — `JSON.parse` sits outside any
`try`/`catch`, so the exception propagates out of the handler instead of
being dropped silently. -/
theorem c3_malformed_counterexample :
    (Chat.onMessage (fun _ => Except.error ()) ⟨["c1", "c2"], [], []⟩ "c1" "not json").2 =
      Except.error () := rfl

/-- Claim C3 as amended: parseable events of unrecognized `type` are
dropped silently by the Coordinator and by the first-revision Reconciler,
and the first-revision Reconciler also swallows parse failures (its
`catch` only logs); but an unparseable payload makes the Coordinator's
handler throw, and the second-revision Reconciler throws both on
unparseable payloads and on parseable events of unrecognized shape that
carry no `messages` array. -/
theorem c3_malformed_amended :
    (∀ (p : ParseFn) (view : List ChatMessage) (raw : String) (now : Nat),
        p raw = Except.error () → rev1OnMessage p view raw now = view)
    ∧ (∀ (p : ParseFn) (view : List ChatMessage) (raw : String) (now : Nat)
        (x : Option (List ChatMessage)),
        p raw = Except.ok (WireEvent.other x) → rev1OnMessage p view raw now = view)
    ∧ (∀ (p : ParseFn) (st : ServerState) (conn raw : String)
        (x : Option (List ChatMessage)),
        p raw = Except.ok (WireEvent.other x) → (Chat.onMessage p st conn raw).2 = Except.ok st)
    ∧ (∀ (p : ParseFn) (st : ServerState) (conn raw : String),
        p raw = Except.error () → (Chat.onMessage p st conn raw).2 = Except.error ())
    ∧ (∀ (p : ParseFn) (view : List ChatMessage) (raw : String) (now : Nat),
        p raw = Except.error () → rev2OnMessage p view raw now = Except.error ())
    ∧ (∀ (p : ParseFn) (view : List ChatMessage) (raw : String) (now : Nat),
        p raw = Except.ok (WireEvent.other none) → rev2OnMessage p view raw now = Except.error ()) := by
  refine ⟨?_, ?_, ?_, ?_, ?_, ?_⟩
  · intro p view raw now h; simp [rev1OnMessage, h]
  · intro p view raw now x h; simp [rev1OnMessage, h]
  · intro p st conn raw x h; simp [Chat.onMessage, h]
  · intro p st conn raw h; simp [Chat.onMessage, h]
  · intro p view raw now h; simp [rev2OnMessage, h]
  · intro p view raw now h; simp [rev2OnMessage, h]

/-- Witness for `c3_malformed_amended`: concrete instantiations of the
silent-drop and throwing behaviours. -/
theorem c3_malformed_amended_witness :
    rev1OnMessage (fun _ => Except.error ()) [] "x" 0 = [] ∧
      rev1OnMessage (fun _ => Except.ok (WireEvent.other none)) [] "x" 0 = [] ∧
      (Chat.onMessage (fun _ => Except.ok (WireEvent.other none)) ⟨[], [], []⟩ "c" "x").2 =
        Except.ok ⟨[], [], []⟩ ∧
      (Chat.onMessage (fun _ => Except.error ()) ⟨[], [], []⟩ "c" "x").2 = Except.error () ∧
      rev2OnMessage (fun _ => Except.error ()) [] "x" 0 = Except.error () ∧
      rev2OnMessage (fun _ => Except.ok (WireEvent.other none)) [] "x" 0 = Except.error () :=
  ⟨c3_malformed_amended.1 _ [] "x" 0 rfl,
    c3_malformed_amended.2.1 _ [] "x" 0 none rfl,
    c3_malformed_amended.2.2.1 _ ⟨[], [], []⟩ "c" "x" none rfl,
    c3_malformed_amended.2.2.2.1 _ ⟨[], [], []⟩ "c" "x" rfl,
    c3_malformed_amended.2.2.2.2.1 _ [] "x" 0 rfl,
    c3_malformed_amended.2.2.2.2.2 _ [] "x" 0 rfl⟩

/-- Claim C7: an `update` for an id absent from the local view is a
no-op for the Reconciler — the `map` finds no matching entry and returns
the view unchanged. -/
theorem c7_unknown_update_noop (view : List ChatMessage) (m : ChatMessage) (now : Nat)
    (h : ∀ x ∈ view, x.id ≠ m.id) :
    updateBranch view m now = view := by
  induction view with
  | nil => rfl
  | cons x xs ih =>
    have hx : (x.id == m.id) = false := beq_eq_false_iff_ne.mpr (h x (by simp))
    simp only [updateBranch, List.map_cons, hx, Bool.false_eq_true, if_false]
    have := ih (fun y hy => h y (by simp [hy]))
    simpa [updateBranch] using this

/-- Witness for `c7_unknown_update_noop`: updating id `99` in a view
that only holds id `m1` changes nothing. -/
theorem c7_unknown_update_noop_witness :
    updateBranch [⟨"m1", "hi", "u", "user", some 1⟩] ⟨"99", "bye", "u", "user", none⟩ 5 =
      [⟨"m1", "hi", "u", "user", some 1⟩] :=
  c7_unknown_update_noop _ _ 5 (by decide)

/-- Claim C10: the entry the Reconciler writes for an `add` or `update`
event carries the local receive time `Date.now()` as its timestamp; the
handlers are insensitive to the timestamp carried by the event, and every
entry of the resulting view is either an untouched old entry or the
freshly stamped one, so the carried timestamp is never stored. -/
theorem c10_local_timestamp :
    (∀ (m : ChatMessage) (now : Nat), (clientEntry m now).timestamp = some now)
    ∧ (∀ (view : List ChatMessage) (m : ChatMessage) (now : Nat) (ts : Option Nat),
        addBranch view { m with timestamp := ts } now = addBranch view m now)
    ∧ (∀ (view : List ChatMessage) (m : ChatMessage) (now : Nat) (ts : Option Nat),
        updateBranch view { m with timestamp := ts } now = updateBranch view m now)
    ∧ (∀ (view : List ChatMessage) (m : ChatMessage) (now : Nat) (x : ChatMessage),
        x ∈ addBranch view m now → x ∈ view ∨ x = clientEntry m now)
    ∧ (∀ (view : List ChatMessage) (m : ChatMessage) (now : Nat) (x : ChatMessage),
        x ∈ updateBranch view m now → x ∈ view ∨ x = clientEntry m now) := by
  refine ⟨fun _ _ => rfl, fun _ _ _ _ => rfl, fun _ _ _ _ => rfl, ?_, ?_⟩
  · intro view m now x hx
    unfold addBranch at hx
    cases hf : findIndex (fun y => y.id == m.id) view with
    | none =>
      rw [hf] at hx
      rcases List.mem_append.mp hx with h | h
      · exact Or.inl h
      · exact Or.inr (by simpa using h)
    | some i =>
      rw [hf] at hx
      rcases List.mem_append.mp hx with h | h
      · rcases List.mem_append.mp h with h2 | h2
        · exact Or.inl (List.take_subset i view h2)
        · exact Or.inr (by simpa using h2)
      · exact Or.inl (List.drop_subset (i + 1) view h)
  · intro view m now x hx
    unfold updateBranch at hx
    rcases List.mem_map.mp hx with ⟨y, hy, hfy⟩
    by_cases hid : (y.id == m.id) = true
    · right; rw [← hfy]; simp [hid]
    · left; rw [← hfy]; simp [hid]; exact hy

/-- Witness for `c10_local_timestamp`: in the view produced by an `add`
carrying timestamp `77`, the inserted entry is the locally stamped one. -/
theorem c10_local_timestamp_witness :
    (⟨"m1", "hi", "u", "user", some 5⟩ : ChatMessage) ∈
        ([] : List ChatMessage) ∨
      (⟨"m1", "hi", "u", "user", some 5⟩ : ChatMessage) =
        clientEntry ⟨"m1", "hi", "u", "user", some 77⟩ 5 :=
  c10_local_timestamp.2.2.2.1 [] ⟨"m1", "hi", "u", "user", some 77⟩ 5 _ (by decide)

/-- Counterexample to claim C6: a snapshot whose message carries no
timestamp is not stored verbatim — the Reconciler stamps it with the
local receive time, so the resulting view differs from the snapshot
list. -/
theorem c6_snapshot_counterexample :
    allBranch [⟨"z", "z", "z", "z", some 1⟩] [⟨"m1", "hi", "u", "user", none⟩] 5 ≠
      [⟨"m1", "hi", "u", "user", none⟩] := by decide

/-- Claim C6 as amended: the snapshot branch replaces the view with the
snapshot list — independent of the prior view, same length, entrywise
equal except that each entry's timestamp becomes the carried one when
present and non-zero and the local receive time otherwise; in particular
the result equals the snapshot exactly when every carried timestamp is
present and non-zero. -/
theorem c6_snapshot_amended :
    (∀ (prior prior2 snap : List ChatMessage) (now : Nat),
        allBranch prior snap now = allBranch prior2 snap now)
    ∧ (∀ (prior snap : List ChatMessage) (now : Nat),
        (allBranch prior snap now).length = snap.length)
    ∧ (∀ (prior snap : List ChatMessage) (now : Nat) (i : Nat),
        (allBranch prior snap now)[i]? =
          (snap[i]?).map (fun msg => { msg with timestamp := some (tsOr msg.timestamp now) }))
    ∧ (∀ (prior snap : List ChatMessage) (now : Nat),
        (∀ msg ∈ snap, ∃ t, msg.timestamp = some t ∧ t ≠ 0) →
        allBranch prior snap now = snap) := by
  refine ⟨fun _ _ _ _ => rfl, fun _ snap _ => by simp [allBranch], ?_, ?_⟩
  · intro prior snap now i
    simp [allBranch, List.getElem?_map]
  · intro prior snap now h
    induction snap with
    | nil => rfl
    | cons msg ms ih =>
      obtain ⟨t, ht, ht0⟩ := h msg (by simp)
      have hrest := ih (fun y hy => h y (by simp [hy]))
      simp only [allBranch, List.map_cons] at hrest ⊢
      rw [hrest, ht]
      simp [tsOr, ht0, ← ht]

/-- Witness for `c6_snapshot_amended`: a snapshot whose entries all carry
non-zero timestamps is stored verbatim, whatever the prior view held. -/
theorem c6_snapshot_amended_witness :
    allBranch [⟨"z", "z", "z", "z", some 9⟩] [⟨"a", "b", "c", "user", some 3⟩] 5 =
      [⟨"a", "b", "c", "user", some 3⟩] :=
  c6_snapshot_amended.2.2.2 _ _ 5 (by
    intro msg hm
    rw [List.mem_singleton] at hm
    subst hm
    exact ⟨3, rfl, by decide⟩)

theorem addBranch_cons (x : ChatMessage) (xs : List ChatMessage) (m : ChatMessage) (now : Nat) :
    addBranch (x :: xs) m now =
      if x.id == m.id then clientEntry m now :: xs else x :: addBranch xs m now := by
  by_cases hx : (x.id == m.id) = true
  · simp [addBranch, findIndex, hx]
  · cases hf : findIndex (fun y => y.id == m.id) xs with
    | none => simp [addBranch, findIndex, hx, hf]
    | some i => simp [addBranch, findIndex, hx, hf, List.take_succ_cons, List.drop_succ_cons]

theorem msgIds_cons (x : ChatMessage) (l : List ChatMessage) :
    msgIds (x :: l) = x.id :: msgIds l := rfl

theorem msgIds_addBranch (view : List ChatMessage) (m : ChatMessage) (now : Nat) :
    msgIds (addBranch view m now) =
      if view.any (fun x => x.id == m.id) then msgIds view else msgIds view ++ [m.id] := by
  induction view with
  | nil => simp [addBranch, findIndex, msgIds, clientEntry]
  | cons x xs ih =>
    rw [addBranch_cons]
    by_cases hx : (x.id == m.id) = true
    · have hxid := eq_of_beq hx
      simp [msgIds_cons, hx, clientEntry, hxid]
    · rw [if_neg hx, msgIds_cons, ih, msgIds_cons]
      have hany : ((x :: xs).any (fun y => y.id == m.id)) = (xs.any (fun y => y.id == m.id)) := by
        simp [List.any_cons, hx]
      rw [hany]
      by_cases ha : xs.any (fun y => y.id == m.id) = true
      · rw [if_pos ha, if_pos ha]
      · rw [if_neg ha, if_neg ha, List.cons_append]

theorem msgIds_updateBranch (view : List ChatMessage) (m : ChatMessage) (now : Nat) :
    msgIds (updateBranch view m now) = msgIds view := by
  induction view with
  | nil => rfl
  | cons x xs ih =>
    have ih' : msgIds (xs.map (fun y => if y.id == m.id then clientEntry m now else y)) =
        msgIds xs := ih
    simp only [updateBranch, List.map_cons, msgIds_cons]
    rw [ih']
    by_cases hx : (x.id == m.id) = true
    · have hxid := eq_of_beq hx
      rw [if_pos hx]
      show m.id :: msgIds xs = x.id :: msgIds xs
      rw [hxid]
    · rw [if_neg hx]

theorem msgIds_map_replace (l : List ChatMessage) (m : ChatMessage) :
    msgIds (l.map (fun x => if x.id == m.id then m else x)) = msgIds l := by
  induction l with
  | nil => rfl
  | cons x xs ih =>
    simp only [List.map_cons, msgIds_cons]
    rw [ih]
    by_cases hx : (x.id == m.id) = true
    · have hxid := eq_of_beq hx
      rw [if_pos hx, hxid]
    · rw [if_neg hx]

theorem msgIds_saveMessage (st : ServerState) (m : ChatMessage) :
    msgIds (Chat.saveMessage st m).messages =
      if (st.messages.find? (fun x => x.id == m.id)).isSome then msgIds st.messages
      else msgIds st.messages ++ [m.id] := by
  by_cases hf : (st.messages.find? (fun x => x.id == m.id)).isSome = true
  · simp only [Chat.saveMessage, hf, if_true]
    exact msgIds_map_replace st.messages m
  · simp [Chat.saveMessage, hf, msgIds]

theorem find?_isSome_of_mem_ids {l : List ChatMessage} {m : ChatMessage}
    (h : m.id ∈ msgIds l) : (l.find? (fun x => x.id == m.id)).isSome = true := by
  rcases List.mem_map.mp h with ⟨x, hx, hxid⟩
  exact List.find?_isSome.mpr ⟨x, hx, beq_iff_eq.mpr hxid⟩

theorem not_mem_ids_of_find?_none {l : List ChatMessage} {m : ChatMessage}
    (h : ¬ (l.find? (fun x => x.id == m.id)).isSome = true) : m.id ∉ msgIds l := by
  intro hmem
  exact h (find?_isSome_of_mem_ids hmem)

theorem not_mem_ids_of_any_false {l : List ChatMessage} {m : ChatMessage}
    (h : ¬ l.any (fun x => x.id == m.id) = true) : m.id ∉ msgIds l := by
  intro hmem
  rcases List.mem_map.mp hmem with ⟨x, hx, hxid⟩
  exact h (List.any_eq_true.mpr ⟨x, hx, beq_iff_eq.mpr hxid⟩)

theorem saveMessage_nodup (st : ServerState) (m : ChatMessage)
    (h : (msgIds st.messages).Nodup) : (msgIds (Chat.saveMessage st m).messages).Nodup := by
  rw [msgIds_saveMessage]
  by_cases hf : (st.messages.find? (fun x => x.id == m.id)).isSome = true
  · simpa [hf] using h
  · have hnotin := not_mem_ids_of_find?_none hf
    simp only [hf, Bool.false_eq_true, if_false]
    rw [List.nodup_append]
    exact ⟨h, by simp, by simp [List.disjoint_singleton, hnotin]⟩

theorem addBranch_nodup (view : List ChatMessage) (m : ChatMessage) (now : Nat)
    (h : (msgIds view).Nodup) : (msgIds (addBranch view m now)).Nodup := by
  rw [msgIds_addBranch]
  by_cases ha : view.any (fun x => x.id == m.id) = true
  · simpa [ha] using h
  · have hnotin := not_mem_ids_of_any_false ha
    simp only [ha, Bool.false_eq_true, if_false]
    rw [List.nodup_append]
    exact ⟨h, by simp, by simp [List.disjoint_singleton, hnotin]⟩

theorem nodup_count_one {l : List String} {a : String} (h : l.Nodup) (ha : a ∈ l) :
    l.count a = 1 :=
  le_antisymm (List.nodup_iff_count_le_one.mp h a) (List.count_pos_iff.mpr ha)

theorem map_replace_idem (l : List ChatMessage) (m : ChatMessage) :
    (l.map (fun x => if x.id == m.id then m else x)).map (fun x => if x.id == m.id then m else x)
      = l.map (fun x => if x.id == m.id then m else x) := by
  rw [List.map_map]
  apply List.map_congr_left
  intro a _
  by_cases ha : (a.id == m.id) = true
  · simp [Function.comp, ha, beq_self_eq_true]
  · simp [Function.comp, ha]

theorem map_replace_of_none (l : List ChatMessage) (m : ChatMessage)
    (h : l.find? (fun x => x.id == m.id) = none) :
    l.map (fun x => if x.id == m.id then m else x) = l := by
  have hall := List.find?_eq_none.mp h
  calc l.map (fun x => if x.id == m.id then m else x)
      = l.map (fun a => a) := List.map_congr_left (fun a ha => by rw [if_neg (hall a ha)])
    _ = l := List.map_id' l

theorem find?_isSome_map_replace (l : List ChatMessage) (m : ChatMessage)
    (h : (l.find? (fun x => x.id == m.id)).isSome = true) :
    ((l.map (fun x => if x.id == m.id then m else x)).find? (fun x => x.id == m.id)).isSome
      = true := by
  rcases List.find?_isSome.mp h with ⟨x, hx, hpx⟩
  apply List.find?_isSome.mpr
  refine ⟨if x.id == m.id then m else x, List.mem_map.mpr ⟨x, hx, rfl⟩, ?_⟩
  rw [if_pos hpx]
  exact beq_self_eq_true m.id

theorem saveMessage_messages_eq (st : ServerState) (m : ChatMessage) :
    (Chat.saveMessage st m).messages =
      if (st.messages.find? (fun x => x.id == m.id)).isSome then
        st.messages.map (fun x => if x.id == m.id then m else x)
      else st.messages ++ [m] := rfl

theorem saveMessage_idem (st : ServerState) (m : ChatMessage) :
    Chat.saveMessage (Chat.saveMessage st m) m = Chat.saveMessage st m := by
  obtain ⟨conns, msgs, tbl⟩ := st
  unfold Chat.saveMessage
  rw [ServerState.mk.injEq]
  refine ⟨rfl, ?_, ?_⟩
  · by_cases hf : (msgs.find? (fun x => x.id == m.id)).isSome = true
    · simp only [hf, if_true]
      rw [if_pos (find?_isSome_map_replace msgs m hf)]
      exact map_replace_idem msgs m
    · simp only [hf, Bool.false_eq_true, if_false]
      have hsome : ((msgs ++ [m]).find? (fun x => x.id == m.id)).isSome = true :=
        List.find?_isSome.mpr ⟨m, by simp, beq_self_eq_true m.id⟩
      rw [if_pos hsome, List.map_append]
      have hm : [m].map (fun x => if x.id == m.id then m else x) = [m] := by
        simp [beq_self_eq_true]
      rw [hm, map_replace_of_none msgs m (Option.not_isSome_iff_eq_none.mp hf)]
  · show sqlUpsert (sqlUpsert tbl m) m = sqlUpsert tbl m
    by_cases ha : tbl.any (fun r => r.id == m.id) = true
    · rcases List.any_eq_true.mp ha with ⟨r, hr, hpr⟩
      have h2 : ((tbl.map (fun r => if r.id == m.id then { r with content := m.content } else r)).any
          (fun r => r.id == m.id)) = true := by
        apply List.any_eq_true.mpr
        refine ⟨if r.id == m.id then { r with content := m.content } else r,
          List.mem_map.mpr ⟨r, hr, rfl⟩, ?_⟩
        rw [if_pos hpr]
        exact hpr
      have hinner : sqlUpsert tbl m =
          tbl.map (fun r => if r.id == m.id then { r with content := m.content } else r) := by
        rw [sqlUpsert, if_pos ha]
      rw [hinner, sqlUpsert, if_pos h2, List.map_map]
      apply List.map_congr_left
      intro r _
      by_cases hrr : (r.id == m.id) = true
      · simp [Function.comp, hrr]
      · simp [Function.comp, hrr]
    · have hsome : ((tbl ++ [(⟨m.id, m.user, m.role, m.content⟩ : Row)]).any
          (fun r => r.id == m.id)) = true := by
        apply List.any_eq_true.mpr
        exact ⟨⟨m.id, m.user, m.role, m.content⟩, by simp, beq_self_eq_true m.id⟩
      have hinner : sqlUpsert tbl m = tbl ++ [(⟨m.id, m.user, m.role, m.content⟩ : Row)] := by
        rw [sqlUpsert, if_neg ha]
      rw [hinner, sqlUpsert, if_pos hsome, List.map_append]
      have hall : ∀ r ∈ tbl, ¬ (r.id == m.id) = true := by
        intro r hr hpr
        exact ha (List.any_eq_true.mpr ⟨r, hr, hpr⟩)
      have h1 : tbl.map (fun r => if r.id == m.id then { r with content := m.content } else r)
          = tbl := by
        calc tbl.map (fun r => if r.id == m.id then { r with content := m.content } else r)
            = tbl.map (fun a => a) := List.map_congr_left (fun a har => by rw [if_neg (hall a har)])
          _ = tbl := List.map_id' tbl
      rw [h1]
      simp [beq_self_eq_true]

theorem addBranch_nil (m : ChatMessage) (now : Nat) :
    addBranch [] m now = [clientEntry m now] := rfl

theorem addBranch_idem (view : List ChatMessage) (m : ChatMessage) (now now2 : Nat) :
    addBranch (addBranch view m now) m now2 = addBranch view m now2 := by
  induction view with
  | nil =>
    rw [addBranch_nil, addBranch_nil, addBranch_cons]
    rw [if_pos (show ((clientEntry m now).id == m.id) = true from beq_self_eq_true m.id)]
  | cons x xs ih =>
    rw [addBranch_cons x xs m now]
    by_cases hx : (x.id == m.id) = true
    · rw [if_pos hx, addBranch_cons,
        if_pos (show ((clientEntry m now).id == m.id) = true from beq_self_eq_true m.id),
        addBranch_cons x xs m now2, if_pos hx]
    · rw [if_neg hx, addBranch_cons x _ m now2, if_neg hx, ih,
        addBranch_cons x xs m now2, if_neg hx]

theorem saveMessage_count (st : ServerState) (m : ChatMessage)
    (h : (msgIds st.messages).Nodup) :
    (msgIds (Chat.saveMessage st m).messages).count m.id = 1 := by
  rw [msgIds_saveMessage]
  by_cases hf : (st.messages.find? (fun x => x.id == m.id)).isSome = true
  · rw [if_pos hf]
    rcases List.find?_isSome.mp hf with ⟨x, hx, hpx⟩
    exact nodup_count_one h (List.mem_map.mpr ⟨x, hx, eq_of_beq hpx⟩)
  · rw [if_neg hf, List.count_append]
    rw [List.count_eq_zero.mpr (not_mem_ids_of_find?_none hf)]
    simp

theorem addBranch_count (view : List ChatMessage) (m : ChatMessage) (now : Nat)
    (h : (msgIds view).Nodup) :
    (msgIds (addBranch view m now)).count m.id = 1 := by
  rw [msgIds_addBranch]
  by_cases ha : view.any (fun x => x.id == m.id) = true
  · rw [if_pos ha]
    rcases List.any_eq_true.mp ha with ⟨x, hx, hpx⟩
    exact nodup_count_one h (List.mem_map.mpr ⟨x, hx, eq_of_beq hpx⟩)
  · rw [if_neg ha, List.count_append]
    rw [List.count_eq_zero.mpr (not_mem_ids_of_any_false ha)]
    simp

/-- Claim C4: applying any sequence of `add`/`update` events to a
Coordinator log or a Reconciler view with no duplicate ids leaves the ids
duplicate-free; applying the same `add` twice equals applying it once
(both server- and client-side, so the entry keeps the position of its
first occurrence), and the result holds exactly one entry with the
event's id. -/
theorem c4_unique_ids :
    (∀ (st : ServerState) (es : List AUEvent), (msgIds st.messages).Nodup →
        (msgIds ((es.foldl serverApply st)).messages).Nodup)
    ∧ (∀ (view : List ChatMessage) (es : List (AUEvent × Nat)), (msgIds view).Nodup →
        (msgIds (es.foldl clientApply view)).Nodup)
    ∧ (∀ (st : ServerState) (m : ChatMessage),
        Chat.saveMessage (Chat.saveMessage st m) m = Chat.saveMessage st m)
    ∧ (∀ (view : List ChatMessage) (m : ChatMessage) (now now2 : Nat),
        addBranch (addBranch view m now) m now2 = addBranch view m now2)
    ∧ (∀ (st : ServerState) (m : ChatMessage), (msgIds st.messages).Nodup →
        (msgIds (Chat.saveMessage st m).messages).count m.id = 1)
    ∧ (∀ (view : List ChatMessage) (m : ChatMessage) (now : Nat), (msgIds view).Nodup →
        (msgIds (addBranch view m now)).count m.id = 1) := by
  refine ⟨?_, ?_, saveMessage_idem, addBranch_idem, saveMessage_count, addBranch_count⟩
  · intro st es
    induction es generalizing st with
    | nil => intro h; exact h
    | cons e es ih =>
      intro h
      exact ih (Chat.saveMessage st e.msg) (saveMessage_nodup st e.msg h)
  · intro view es
    induction es generalizing view with
    | nil => intro h; exact h
    | cons en es ih =>
      intro h
      cases hc : en.1 with
      | add m =>
        have hstep : (msgIds (clientApply view en)).Nodup := by
          rw [clientApply, hc]
          exact addBranch_nodup view m en.2 h
        exact ih (clientApply view en) hstep
      | update m =>
        have hstep : (msgIds (clientApply view en)).Nodup := by
          rw [clientApply, hc]
          rw [msgIds_updateBranch]
          exact h
        exact ih (clientApply view en) hstep

/-- Witness for `c4_unique_ids`: a two-entry view with distinct ids keeps
distinct ids after an event sequence, and the double-add equations at a
concrete state. -/
theorem c4_unique_ids_witness :
    (msgIds ([(AUEvent.add ⟨"m2", "x", "u", "user", none⟩, 7)].foldl clientApply
        [⟨"m1", "hi", "u", "user", some 1⟩])).Nodup ∧
      (msgIds (addBranch [⟨"m1", "hi", "u", "user", some 1⟩]
        ⟨"m2", "x", "u", "user", none⟩ 7)).count "m2" = 1 :=
  ⟨c4_unique_ids.2.1 [⟨"m1", "hi", "u", "user", some 1⟩] _ (by decide),
    c4_unique_ids.2.2.2.2.2 [⟨"m1", "hi", "u", "user", some 1⟩]
      ⟨"m2", "x", "u", "user", none⟩ 7 (by decide)⟩

/-- Claim C5: an `update` (or any event routed to `saveMessage`) for an
id present in the log replaces that entry in place: the length is
unchanged and every position holds its old entry unless its id matches,
in which case it holds the new record — entries never move. -/
theorem c5_inplace_update :
    (∀ (st : ServerState) (m : ChatMessage), m.id ∈ msgIds st.messages →
        (Chat.saveMessage st m).messages.length = st.messages.length ∧
        ∀ i : Nat, (Chat.saveMessage st m).messages[i]? =
          (st.messages[i]?).map (fun x => if x.id == m.id then m else x))
    ∧ (∀ (view : List ChatMessage) (m : ChatMessage) (now : Nat), m.id ∈ msgIds view →
        (updateBranch view m now).length = view.length ∧
        ∀ i : Nat, (updateBranch view m now)[i]? =
          (view[i]?).map (fun x => if x.id == m.id then clientEntry m now else x)) := by
  constructor
  · intro st m hmem
    have hf := find?_isSome_of_mem_ids hmem
    rw [saveMessage_messages_eq, if_pos hf]
    exact ⟨List.length_map _ _, fun i => List.getElem?_map _ _ _⟩
  · intro view m now _
    exact ⟨List.length_map _ _, fun i => List.getElem?_map _ _ _⟩

/-- Witness for `c5_inplace_update`: in the log `[m1, m2, m3]` an update
to `m2` keeps length `3` and rewrites only position `1`. -/
theorem c5_inplace_update_witness :
    ((Chat.saveMessage ⟨[], [⟨"1", "a", "u", "user", none⟩, ⟨"2", "b", "u", "user", none⟩,
          ⟨"3", "c", "u", "user", none⟩], []⟩ ⟨"2", "B", "v", "user", none⟩).messages.length =
        ([⟨"1", "a", "u", "user", none⟩, ⟨"2", "b", "u", "user", none⟩,
          ⟨"3", "c", "u", "user", none⟩] : List ChatMessage).length ∧
      ∀ i : Nat, (Chat.saveMessage ⟨[], [⟨"1", "a", "u", "user", none⟩,
          ⟨"2", "b", "u", "user", none⟩, ⟨"3", "c", "u", "user", none⟩], []⟩
          ⟨"2", "B", "v", "user", none⟩).messages[i]? =
        (([⟨"1", "a", "u", "user", none⟩, ⟨"2", "b", "u", "user", none⟩,
          ⟨"3", "c", "u", "user", none⟩] : List ChatMessage)[i]?).map
          (fun x => if x.id == ("2" : String) then ⟨"2", "B", "v", "user", none⟩ else x)) :=
  c5_inplace_update.1 ⟨[], [⟨"1", "a", "u", "user", none⟩, ⟨"2", "b", "u", "user", none⟩,
    ⟨"3", "c", "u", "user", none⟩], []⟩ ⟨"2", "B", "v", "user", none⟩ (by decide)

/-- Counterexample to claim C2: after `add` of `m1` by `alice` (role
`user`) and `update` of `m1` by `bob` (role `assistant`), the persisted
row still carries `alice`/`user` — the `ON CONFLICT` clause of the upsert
updates only `content`, so the record does not hold the latest `user` and
`role`. -/
theorem c2_persist_counterexample :
    (Chat.saveMessage (Chat.saveMessage ⟨[], [], []⟩ ⟨"m1", "hi", "alice", "user", none⟩)
        ⟨"m1", "bye", "bob", "assistant", none⟩).table =
      [⟨"m1", "alice", "user", "bye"⟩] ∧
    (⟨"m1", "alice", "user", "bye"⟩ : Row) ≠ ⟨"m1", "bob", "assistant", "bye"⟩ := by
  decide

/-- Claim C2 as amended: when the id is already persisted, the upsert
keeps the row in place and updates only its `content` — `user` and `role`
remain those of the first insert; reloading after `add{m1, hi}` then
`update{m1, bye}` still yields exactly one record with id `m1` and
content `bye` (with the original user and role). -/
theorem c2_persist_amended :
    (∀ (tbl : List Row) (m : ChatMessage), (∃ r ∈ tbl, r.id = m.id) →
        sqlUpsert tbl m =
          tbl.map (fun r => if r.id == m.id then { r with content := m.content } else r))
    ∧ loadMessages (Chat.saveMessage (Chat.saveMessage ⟨[], [], []⟩
          ⟨"m1", "hi", "alice", "user", none⟩) ⟨"m1", "bye", "bob", "assistant", none⟩).table =
        [⟨"m1", "bye", "alice", "user", none⟩] := by
  constructor
  · intro tbl m h
    rcases h with ⟨r, hr, hid⟩
    have ha : tbl.any (fun r => r.id == m.id) = true :=
      List.any_eq_true.mpr ⟨r, hr, beq_iff_eq.mpr hid⟩
    rw [sqlUpsert, if_pos ha]
  · decide

/-- Witness for `c2_persist_amended`: updating an existing row rewrites
only its content column. -/
theorem c2_persist_amended_witness :
    sqlUpsert [⟨"m1", "alice", "user", "hi"⟩] ⟨"m1", "bye", "bob", "assistant", none⟩ =
      [(⟨"m1", "alice", "user", "hi"⟩ : Row)].map
        (fun r => if r.id == ("m1" : String) then { r with content := "bye" } else r) :=
  c2_persist_amended.1 [⟨"m1", "alice", "user", "hi"⟩] ⟨"m1", "bye", "bob", "assistant", none⟩
    ⟨⟨"m1", "alice", "user", "hi"⟩, by simp, rfl⟩

end QixiChat
